import Mathlib

/-!
Verification of the dataset-hoster query dispatch and result-shaping core.

The definitions below are a shallow embedding of `datasethoster/main.py`:

* `convert_results_to_outputs` embeds the result grouper of the same name;
  a pydantic output record is embedded as `OutputRecord`, carrying the
  ordered field-name list of its model class (`__fields__.keys()`), the
  flag `isLine` standing for `isinstance(r, QueryOutputLine)` (the class
  itself lives in the package `__init__`, outside the studied sources, so
  only the instance test is modelled), and `values` standing for the plain
  mapping `r.dict()`.
* Python compares `__fields__.keys()` views with `!=`; dict key views
  compare as sets, so the embedding uses the order-insensitive `keysEq`.
* A pydantic model instance is always truthy (no `__bool__`/`__len__`),
  so the trailing guard `if last_result and last_keys and last_output`
  is embedded as the two list-nonemptiness tests only.
* The three request handlers and `register_query` are embedded as pure
  functions from a request/state model; each returns its response
  together with a trace of the binder/fetch calls it performed, so that
  claims about operations never being invoked are statements about the
  trace.
-/

/-- Set equality of two field-name lists: Python `dict_keys` views compare
as sets, ignoring order. Field names of one model are distinct, so mutual
membership is exactly set equality. -/
def keysEq (a b : List String) : Bool :=
  a.all (fun x => decide (x ∈ b)) && b.all (fun x => decide (x ∈ a))

theorem keysEq_iff_mem (a b : List String) :
    keysEq a b = true ↔ ∀ x : String, x ∈ a ↔ x ∈ b := by
  simp only [keysEq, Bool.and_eq_true, List.all_eq_true, decide_eq_true_eq]
  constructor
  · rintro ⟨h1, h2⟩ x
    exact ⟨fun hx => h1 x hx, fun hx => h2 x hx⟩
  · intro h
    exact ⟨fun x hx => (h x).mp hx, fun x hx => (h x).mpr hx⟩

theorem keysEq_refl (a : List String) : keysEq a a = true := by
  rw [keysEq_iff_mem]
  intro x
  exact Iff.rfl

theorem keysEq_symm {a b : List String} (h : keysEq a b = true) :
    keysEq b a = true := by
  rw [keysEq_iff_mem] at h ⊢
  intro x
  exact (h x).symm

theorem keysEq_trans {a b c : List String} (h1 : keysEq a b = true)
    (h2 : keysEq b c = true) : keysEq a c = true := by
  rw [keysEq_iff_mem] at h1 h2 ⊢
  intro x
  exact (h1 x).trans (h2 x)

theorem keysEq_ne_nil {a b : List String} (h : keysEq a b = true)
    (ha : a ≠ []) : b ≠ [] := by
  rw [keysEq_iff_mem] at h
  match a, ha with
  | x :: _, _ =>
    intro hb
    have hx : x ∈ b := (h x).mp (List.mem_cons_self x _)
    rw [hb] at hx
    exact absurd hx (List.not_mem_nil x)

/-- One output record, as the grouper sees it: the ordered field names of
its model class, whether it is an instance of the free-text shape
`QueryOutputLine`, and its `dict()` image. -/
structure OutputRecord where
  fields : List String
  isLine : Bool
  values : List (String × String)
  deriving DecidableEq

/-- A fallback record used only to read the head/last of lists already
known to be nonempty. -/
def defaultRec : OutputRecord := ⟨[], false, []⟩

/-- One output block, as appended to `outputs` by the grouper:
`columns` is the stored `last_keys` (ordered field names of the first
record of the run), `data` the accumulated `dict()` images, `no_table`
the stored `isinstance(last_result, QueryOutputLine)` flag. -/
structure Block where
  columns : List String
  data : List (List (String × String))
  no_table : Bool
  deriving DecidableEq

/-- The loop of `convert_results_to_outputs`, with the Python local
variables as explicit accumulators. On exhaustion it performs the final
`if last_result and last_keys and last_output` append; a pydantic model
is always truthy, leaving the two list tests. -/
def groupLoop : List OutputRecord → OutputRecord → List String →
    List (List (String × String)) → List Block → List Block
  | [], last_result, last_keys, last_output, outputs =>
    if last_keys ≠ [] ∧ last_output ≠ [] then
      outputs ++ [⟨last_keys, last_output, last_result.isLine⟩]
    else
      outputs
  | result :: rest, last_result, last_keys, last_output, outputs =>
    if keysEq result.fields last_keys then
      groupLoop rest result last_keys (last_output ++ [result.values]) outputs
    else
      groupLoop rest result result.fields [result.values]
        (outputs ++ [⟨last_keys, last_output, last_result.isLine⟩])

/-- Embedding of `convert_results_to_outputs`: empty input short-circuits
to `[]`; otherwise the loop runs over the whole sequence with
`last_result = results[0]`, `last_keys = results[0].__fields__.keys()`,
`last_output = []`. -/
def convert_results_to_outputs (results : List OutputRecord) : List Block :=
  match results with
  | [] => []
  | r :: _ => groupLoop results r r.fields [] []

/-- Proof-side restatement of `groupLoop` without the `outputs`
accumulator: the blocks still to be produced, given the state of the
current run. -/
def mergeRun : List String → List (List (String × String)) → OutputRecord →
    List OutputRecord → List Block
  | last_keys, last_output, last_result, [] =>
    if last_keys ≠ [] ∧ last_output ≠ [] then
      [⟨last_keys, last_output, last_result.isLine⟩]
    else
      []
  | last_keys, last_output, last_result, result :: rest =>
    if keysEq result.fields last_keys then
      mergeRun last_keys (last_output ++ [result.values]) result rest
    else
      ⟨last_keys, last_output, last_result.isLine⟩ ::
        mergeRun result.fields [result.values] result rest

theorem groupLoop_eq_mergeRun (rest : List OutputRecord)
    (lr : OutputRecord) (lk : List String)
    (lo : List (List (String × String))) (outs : List Block) :
    groupLoop rest lr lk lo outs = outs ++ mergeRun lk lo lr rest := by
  induction rest generalizing lr lk lo outs with
  | nil =>
    simp only [groupLoop, mergeRun]
    split
    · rfl
    · simp
  | cons r rs ih =>
    simp only [groupLoop, mergeRun]
    split
    · exact ih r lk (lo ++ [r.values]) outs
    · rw [ih]
      simp

theorem convert_cons (r : OutputRecord) (rs : List OutputRecord) :
    convert_results_to_outputs (r :: rs) = mergeRun r.fields [r.values] r rs := by
  simp only [convert_results_to_outputs, groupLoop_eq_mergeRun, List.nil_append,
    mergeRun, keysEq_refl r.fields, if_true]

/-- First record of a run (runs are never empty; the default is never
read). -/
def headRec (c : List OutputRecord) : OutputRecord := c.headD defaultRec

/-- Last record of a run. -/
def lastRec : List OutputRecord → OutputRecord
  | [] => defaultRec
  | [a] => a
  | _ :: b :: l => lastRec (b :: l)

theorem lastRec_cons_cons (a b : OutputRecord) (l : List OutputRecord) :
    lastRec (a :: b :: l) = lastRec (b :: l) := rfl

theorem lastRec_cons_of_ne_nil (a : OutputRecord) {c : List OutputRecord}
    (h : c ≠ []) : lastRec (a :: c) = lastRec c := by
  match c, h with
  | b :: l, _ => rfl

/-- Reference chunking of a record sequence into maximal runs: a new
chunk starts exactly at an index where the field-name set differs (as a
set) from that of the preceding record. -/
def chunkRuns : List OutputRecord → List (List OutputRecord)
  | [] => []
  | r :: rs =>
    match chunkRuns rs with
    | [] => [[r]]
    | c :: cs =>
      if keysEq r.fields (headRec c).fields then
        (r :: c) :: cs
      else
        [r] :: c :: cs

/-- The block a run of records should yield: columns from the first
record of the run, the `dict()` images in order, and the freeform flag
taken from the last record of the run. -/
def mkBlock (run : List OutputRecord) : Block :=
  ⟨(headRec run).fields, run.map OutputRecord.values, (lastRec run).isLine⟩

theorem chunkRuns_eq_nil_iff (l : List OutputRecord) :
    chunkRuns l = [] ↔ l = [] := by
  cases l with
  | nil => simp [chunkRuns]
  | cons r rs =>
    simp only [chunkRuns]
    constructor
    · intro h
      rcases hcr : chunkRuns rs with _ | ⟨c, cs⟩ <;> rw [hcr] at h
      · cases h
      · dsimp only at h
        split at h <;> cases h
    · intro h
      cases h

theorem chunkRuns_mem_ne_nil {l : List OutputRecord}
    {c : List OutputRecord} (h : c ∈ chunkRuns l) : c ≠ [] := by
  induction l generalizing c with
  | nil => simp [chunkRuns] at h
  | cons r rs ih =>
    simp only [chunkRuns] at h
    rcases hcr : chunkRuns rs with _ | ⟨c0, cs0⟩ <;> rw [hcr] at h
    · simp at h
      simp [h]
    · dsimp only at h
      split at h
      · rcases List.mem_cons.mp h with h1 | h1
        · simp [h1]
        · exact ih (hcr ▸ List.mem_cons_of_mem c0 h1)
      · rcases List.mem_cons.mp h with h1 | h1
        · simp [h1]
        · exact ih (hcr ▸ h1)

theorem chunkRuns_flatten (l : List OutputRecord) :
    (chunkRuns l).flatten = l := by
  induction l with
  | nil => simp [chunkRuns]
  | cons r rs ih =>
    simp only [chunkRuns]
    rcases hcr : chunkRuns rs with _ | ⟨c0, cs0⟩
    · rw [hcr] at ih
      simp at ih
      simp [ih]
    · rw [hcr] at ih
      dsimp only
      split
      · simp only [List.flatten_cons] at ih ⊢
        rw [List.cons_append, ih]
      · simp only [List.flatten_cons] at ih ⊢
        rw [List.singleton_append, ih]

theorem chunkRuns_head_keysEq (l : List OutputRecord) :
    ∀ c ∈ chunkRuns l, ∀ a ∈ c, keysEq (headRec c).fields a.fields = true := by
  induction l with
  | nil => simp [chunkRuns]
  | cons r rs ih =>
    intro c hc a ha
    simp only [chunkRuns] at hc
    rcases hcr : chunkRuns rs with _ | ⟨c0, cs0⟩ <;> rw [hcr] at hc
    · simp at hc
      subst hc
      simp at ha
      subst ha
      exact keysEq_refl _
    · dsimp only at hc
      split at hc <;> rename_i hk
      · rcases List.mem_cons.mp hc with h1 | h1
        · subst h1
          rcases List.mem_cons.mp ha with h2 | h2
          · subst h2
            exact keysEq_refl _
          · have := ih c0 (hcr ▸ List.mem_cons_self c0 cs0) a h2
            exact keysEq_trans hk this
        · exact ih c (hcr ▸ List.mem_cons_of_mem c0 h1) a ha
      · rcases List.mem_cons.mp hc with h1 | h1
        · subst h1
          simp at ha
          subst ha
          exact keysEq_refl _
        · exact ih c (hcr ▸ h1) a ha

theorem chunkRuns_chain_boundary (l : List OutputRecord) :
    List.Chain' (fun c d => keysEq (lastRec c).fields (headRec d).fields = false)
      (chunkRuns l) := by
  induction l with
  | nil => simp [chunkRuns]
  | cons r rs ih =>
    simp only [chunkRuns]
    rcases hcr : chunkRuns rs with _ | ⟨c0, cs0⟩
    · simp
    · rw [hcr] at ih
      dsimp only
      split <;> rename_i hk
      · have hc0 : c0 ≠ [] := chunkRuns_mem_ne_nil (hcr ▸ List.mem_cons_self c0 cs0)
        cases cs0 with
        | nil => simp
        | cons d ds =>
          rw [List.chain'_cons] at ih ⊢
          refine ⟨?_, ih.2⟩
          rw [lastRec_cons_of_ne_nil r hc0]
          exact ih.1
      · rw [List.chain'_cons]
        refine ⟨?_, ih⟩
        simp only [lastRec, headRec]
        rw [Bool.eq_false_iff]
        intro hcon
        have hc0 : c0 ≠ [] := chunkRuns_mem_ne_nil (hcr ▸ List.mem_cons_self c0 cs0)
        exact hk hcon

theorem keysEq_comm (a b : List String) : keysEq a b = keysEq b a := by
  by_cases h : keysEq a b = true
  · rw [h, keysEq_symm h]
  · by_cases h2 : keysEq b a = true
    · exact absurd (keysEq_symm h2) h
    · rw [Bool.not_eq_true] at h h2
      rw [h, h2]

/-- What `mergeRun` produces, expressed against the reference chunking:
the pending run is either the final block, merges with the first chunk
when the field sets agree, or is emitted before the chunked blocks. -/
def mergeSpec (lk : List String) (lo : List (List (String × String)))
    (lr : OutputRecord) : List (List OutputRecord) → List Block
  | [] => [⟨lk, lo, lr.isLine⟩]
  | c :: cs =>
    if keysEq (headRec c).fields lk then
      ⟨lk, lo ++ c.map OutputRecord.values, (lastRec c).isLine⟩ :: cs.map mkBlock
    else
      ⟨lk, lo, lr.isLine⟩ :: mkBlock c :: cs.map mkBlock

theorem mergeRun_chunks (rest : List OutputRecord) (lk : List String)
    (lo : List (List (String × String))) (lr : OutputRecord)
    (hlo : lo ≠ []) (h1 : rest = [] → lk ≠ [])
    (h2 : ∀ t, rest.getLast? = some t → t.fields ≠ []) :
    mergeRun lk lo lr rest = mergeSpec lk lo lr (chunkRuns rest) := by
  induction rest generalizing lk lo lr with
  | nil =>
    simp only [mergeRun, chunkRuns, mergeSpec]
    rw [if_pos ⟨h1 rfl, hlo⟩]
  | cons r rs ih =>
    have hrlast : rs = [] → r.fields ≠ [] := by
      intro h
      subst h
      exact h2 r rfl
    have h2rs : ∀ t, rs.getLast? = some t → t.fields ≠ [] := by
      intro t ht
      apply h2
      cases rs with
      | nil => cases ht
      | cons b l => rw [List.getLast?_cons_cons]; exact ht
    simp only [mergeRun, chunkRuns]
    by_cases hk : keysEq r.fields lk = true
    · rw [if_pos hk]
      have h1rs : rs = [] → lk ≠ [] := by
        intro h
        exact keysEq_ne_nil hk (hrlast h)
      rw [ih lk (lo ++ [r.values]) r (by simp) h1rs h2rs]
      rcases hcr : chunkRuns rs with _ | ⟨c, cs⟩
      · have hrs : rs = [] := (chunkRuns_eq_nil_iff rs).mp hcr
        subst hrs
        simp only [chunkRuns, mergeSpec, headRec, List.headD, lastRec]
        rw [if_pos hk]
        simp
      · have hcne : c ≠ [] := chunkRuns_mem_ne_nil (hcr ▸ List.mem_cons_self c cs)
        by_cases hc : keysEq r.fields (headRec c).fields = true
        · have hck : keysEq (headRec c).fields lk = true :=
            keysEq_trans (keysEq_symm hc) hk
          simp only [mergeSpec]
          rw [if_pos hck, if_pos hc]
          simp only [mergeSpec, headRec, List.headD]
          rw [if_pos hk, lastRec_cons_of_ne_nil r hcne]
          simp
        · have hck : keysEq (headRec c).fields lk = false := by
            rw [Bool.eq_false_iff]
            intro hcon
            exact hc (keysEq_trans hk (keysEq_symm hcon))
          simp only [mergeSpec]
          rw [if_neg (by simp [hck]), if_neg hc]
          simp only [mergeSpec, headRec, List.headD]
          rw [if_pos hk]
          simp [mkBlock, headRec, lastRec]
    · rw [if_neg hk]
      rw [ih r.fields [r.values] r (by simp) (fun _ => hrlast (by assumption)) h2rs]
      rcases hcr : chunkRuns rs with _ | ⟨c, cs⟩
      · have hrs : rs = [] := (chunkRuns_eq_nil_iff rs).mp hcr
        subst hrs
        simp only [chunkRuns, mergeSpec, headRec, List.headD, lastRec]
        rw [if_neg hk]
        simp [mkBlock, headRec, lastRec]
      · have hcne : c ≠ [] := chunkRuns_mem_ne_nil (hcr ▸ List.mem_cons_self c cs)
        by_cases hc : keysEq r.fields (headRec c).fields = true
        · have hcr2 : keysEq (headRec c).fields r.fields = true := keysEq_symm hc
          simp only [mergeSpec]
          rw [if_pos hcr2, if_pos hc]
          simp only [mergeSpec, headRec, List.headD]
          rw [if_neg hk]
          simp [mkBlock, headRec, lastRec_cons_of_ne_nil r hcne]
        · have hcr2 : keysEq (headRec c).fields r.fields = false := by
            rw [Bool.eq_false_iff]
            intro hcon
            exact hc (keysEq_symm hcon)
          simp only [mergeSpec]
          rw [if_neg (by simp [hcr2]), if_neg hc]
          simp only [mergeSpec, headRec, List.headD]
          rw [if_neg hk]
          simp [mkBlock, headRec, lastRec]

/-- The grouper agrees with the reference chunking whenever the final
record has a nonempty field set (or the sequence is empty): each chunk
of `chunkRuns` becomes exactly one block via `mkBlock`. -/
theorem convert_eq_chunks (results : List OutputRecord)
    (h : results.getLast?.all (fun r => !r.fields.isEmpty) = true) :
    convert_results_to_outputs results = (chunkRuns results).map mkBlock := by
  cases results with
  | nil => rfl
  | cons r rs =>
    rw [convert_cons]
    have h2 : ∀ t, (r :: rs).getLast? = some t → t.fields ≠ [] := by
      intro t ht
      rw [ht] at h
      simp only [Option.all_some, Bool.not_eq_true'] at h
      intro hnil
      rw [hnil] at h
      simp at h
    have h1rs : rs = [] → r.fields ≠ [] := by
      intro hrs
      subst hrs
      exact h2 r rfl
    have h2rs : ∀ t, rs.getLast? = some t → t.fields ≠ [] := by
      intro t ht
      apply h2
      cases rs with
      | nil => cases ht
      | cons b l => rw [List.getLast?_cons_cons]; exact ht
    rw [mergeRun_chunks rs r.fields [r.values] r (by simp) h1rs h2rs]
    simp only [chunkRuns]
    rcases hcr : chunkRuns rs with _ | ⟨c, cs⟩
    · simp [mergeSpec, mkBlock, headRec, lastRec]
    · have hcne : c ≠ [] := chunkRuns_mem_ne_nil (hcr ▸ List.mem_cons_self c cs)
      by_cases hc : keysEq r.fields (headRec c).fields = true
      · simp only [mergeSpec]
        rw [if_pos (keysEq_symm hc), if_pos hc]
        simp [mkBlock, headRec, lastRec_cons_of_ne_nil r hcne]
      · simp only [mergeSpec]
        rw [if_neg (fun hcon => hc (keysEq_symm hcon)), if_neg hc]
        simp [mkBlock, headRec, lastRec]

theorem map_mkBlock_data_flatten (cs : List (List OutputRecord)) :
    ((cs.map mkBlock).map Block.data).flatten =
      cs.flatten.map OutputRecord.values := by
  induction cs with
  | nil => rfl
  | cons c cs ih =>
    simp only [List.map_cons, List.flatten_cons, List.map_append]
    rw [ih]
    rfl

theorem mergeRun_data_ne_nil (rest : List OutputRecord) (lk : List String)
    (lo : List (List (String × String))) (lr : OutputRecord) (hlo : lo ≠ []) :
    ∀ b ∈ mergeRun lk lo lr rest, b.data ≠ [] := by
  induction rest generalizing lk lo lr with
  | nil =>
    simp only [mergeRun]
    split
    · intro b hb
      simp at hb
      subst hb
      exact hlo
    · simp
  | cons r rs ih =>
    simp only [mergeRun]
    split
    · exact ih lk (lo ++ [r.values]) r (by simp)
    · intro b hb
      rcases List.mem_cons.mp hb with h1 | h1
      · subst h1
        exact hlo
      · exact ih r.fields [r.values] r (by simp) b h1

theorem forall2_no_table (cs : List (List OutputRecord)) :
    List.Forall₂ (fun b c => b.no_table = (lastRec c).isLine)
      (cs.map mkBlock) cs := by
  induction cs with
  | nil => exact List.Forall₂.nil
  | cons c cs ih => exact List.Forall₂.cons rfl ih

/-- Sample records used to instantiate the universally quantified claim
theorems at concrete inputs. -/
def recA : OutputRecord := ⟨["a"], false, [("a", "1")]⟩

def recB : OutputRecord := ⟨["b"], false, [("b", "2")]⟩

def recLine : OutputRecord := ⟨["line"], true, [("line", "hello")]⟩

def recFakeLine : OutputRecord := ⟨["line"], false, [("line", "plain")]⟩

def recAB : OutputRecord := ⟨["a", "b"], false, [("a", "1"), ("b", "2")]⟩

def recBA : OutputRecord := ⟨["b", "a"], false, [("b", "2"), ("a", "1")]⟩

def recNoFields : OutputRecord := ⟨[], false, []⟩

/-- C1 counterexample: a sequence ending in a record whose model has no
fields loses that trailing run, because the final guard
`if last_result and last_keys and last_output` sees an empty (falsy)
key view. Concatenating the emitted blocks does not reproduce the
input. -/
theorem c1_counterexample :
    ((convert_results_to_outputs [recNoFields]).map Block.data).flatten ≠
      [recNoFields].map OutputRecord.values := by
  decide

/-- C1 (amended): for every ordered sequence whose final record has a
nonempty field-name set, the grouper emits exactly one block per maximal
run of set-equal field names — block boundaries fall exactly at indices
where the field-name set differs from the preceding record (chunks are
nonempty, internally set-uniform, and adjacent chunks differ at the
boundary), and concatenating the blocks' records in order reproduces the
input sequence with no record lost, duplicated or reordered. -/
theorem c1_grouper_blocks (results : List OutputRecord)
    (h : results.getLast?.all (fun r => !r.fields.isEmpty) = true) :
    convert_results_to_outputs results = (chunkRuns results).map mkBlock
    ∧ (chunkRuns results).flatten = results
    ∧ (∀ c ∈ chunkRuns results, c ≠ [] ∧
         ∀ a ∈ c, ∀ b ∈ c, keysEq a.fields b.fields = true)
    ∧ List.Chain' (fun c d => keysEq (lastRec c).fields (headRec d).fields = false)
        (chunkRuns results)
    ∧ ((convert_results_to_outputs results).map Block.data).flatten =
        results.map OutputRecord.values := by
  refine ⟨convert_eq_chunks results h, chunkRuns_flatten results, ?_,
    chunkRuns_chain_boundary results, ?_⟩
  · intro c hc
    refine ⟨chunkRuns_mem_ne_nil hc, ?_⟩
    intro a ha b hb
    exact keysEq_trans (keysEq_symm (chunkRuns_head_keysEq results c hc a ha))
      (chunkRuns_head_keysEq results c hc b hb)
  · rw [convert_eq_chunks results h, map_mkBlock_data_flatten,
      chunkRuns_flatten]

theorem c1_grouper_blocks_witness :
    ([recA, recA, recB].getLast?.all (fun r => !r.fields.isEmpty) = true)
    ∧ (convert_results_to_outputs [recA, recA, recB] =
        (chunkRuns [recA, recA, recB]).map mkBlock
      ∧ (chunkRuns [recA, recA, recB]).flatten = [recA, recA, recB]
      ∧ (∀ c ∈ chunkRuns [recA, recA, recB], c ≠ [] ∧
           ∀ a ∈ c, ∀ b ∈ c, keysEq a.fields b.fields = true)
      ∧ List.Chain'
          (fun c d => keysEq (lastRec c).fields (headRec d).fields = false)
          (chunkRuns [recA, recA, recB])
      ∧ ((convert_results_to_outputs [recA, recA, recB]).map Block.data).flatten =
          [recA, recA, recB].map OutputRecord.values) :=
  ⟨by decide, c1_grouper_blocks [recA, recA, recB] (by decide)⟩

/-- C4 counterexample: two consecutive records whose field names are the
same set in a different order do not start a new block — Python compares
`__fields__.keys()` views, which is set equality — so the grouper yields
a single block even though the ordered field lists differ. -/
theorem c4_counterexample :
    recAB.fields ≠ recBA.fields
    ∧ convert_results_to_outputs [recAB, recBA] =
        [⟨["a", "b"], [recAB.values, recBA.values], false⟩] := by
  decide

/-- C4 (amended): the relation driving block boundaries is set equality
of the field-name lists, order ignored: it holds iff the two lists have
the same members, and a two-record sequence produces one block when the
sets agree and two blocks when they differ. -/
theorem c4_shape_set_equality :
    (∀ a b : List String, keysEq a b = true ↔ ∀ x : String, x ∈ a ↔ x ∈ b)
    ∧ ∀ r1 r2 : OutputRecord, r2.fields ≠ [] →
        (convert_results_to_outputs [r1, r2]).length =
          if keysEq r1.fields r2.fields then 1 else 2 := by
  refine ⟨keysEq_iff_mem, ?_⟩
  intro r1 r2 h2
  rw [convert_cons]
  simp only [mergeRun]
  by_cases hk : keysEq r2.fields r1.fields = true
  · rw [if_pos hk]
    have h1 : r1.fields ≠ [] := keysEq_ne_nil hk h2
    rw [if_pos ⟨h1, by simp⟩, if_pos (keysEq_symm hk)]
    rfl
  · rw [if_neg hk]
    rw [if_pos ⟨h2, by simp⟩]
    rw [if_neg (fun hcon => hk (keysEq_symm hcon))]
    rfl

theorem c4_shape_set_equality_witness :
    (keysEq recA.fields recA.fields = true ↔
       ∀ x : String, x ∈ recA.fields ↔ x ∈ recA.fields)
    ∧ (recB.fields ≠ []
    ∧ (convert_results_to_outputs [recA, recB]).length =
        if keysEq recA.fields recB.fields then 1 else 2) :=
  ⟨c4_shape_set_equality.1 recA.fields recA.fields,
   by decide, c4_shape_set_equality.2 recA recB (by decide)⟩

/-- C5 counterexample: a run mixing a `QueryOutputLine` instance with a
record of another model class sharing the same field-name set forms one
block, and its `no_table` flag comes from the last record only — here
`false`, although the first record of the run is the designated
free-text shape. The flag is not independent of which record of the run
is inspected. -/
theorem c5_counterexample :
    convert_results_to_outputs [recLine, recFakeLine] =
      [⟨["line"], [recLine.values, recFakeLine.values], false⟩]
    ∧ recLine.isLine = true ∧ recFakeLine.isLine = false := by
  decide

/-- C5 (amended): for every block emitted by the grouper (over a
sequence whose final record has a nonempty field set), the `no_table`
flag equals the free-text-shape test of the LAST record of the block's
run; in particular it reflects the run's schema whenever all records of
the run agree on that test. -/
theorem c5_no_table_from_last (results : List OutputRecord)
    (h : results.getLast?.all (fun r => !r.fields.isEmpty) = true) :
    List.Forall₂ (fun b c => b.no_table = (lastRec c).isLine)
      (convert_results_to_outputs results) (chunkRuns results) := by
  rw [convert_eq_chunks results h]
  exact forall2_no_table _

theorem c5_no_table_from_last_witness :
    ([recLine, recB].getLast?.all (fun r => !r.fields.isEmpty) = true)
    ∧ List.Forall₂ (fun b c => b.no_table = (lastRec c).isLine)
        (convert_results_to_outputs [recLine, recB])
        (chunkRuns [recLine, recB]) :=
  ⟨by decide, c5_no_table_from_last [recLine, recB] (by decide)⟩

/-- C7: the grouper applied to the empty output sequence returns the
empty block sequence — `if not results: return []` — not a sequence
containing one empty block. -/
theorem c7_empty_input : convert_results_to_outputs [] = [] := rfl

/-- C9: every block emitted by the grouper carries at least one record:
a block is only appended after at least one `last_output.append`, so no
element of the returned sequence has an empty `data` list. -/
theorem c9_blocks_nonempty (results : List OutputRecord) :
    ∀ b ∈ convert_results_to_outputs results, b.data ≠ [] := by
  cases results with
  | nil => simp [convert_results_to_outputs]
  | cons r rs =>
    rw [convert_cons]
    exact mergeRun_data_ne_nil rs r.fields [r.values] r (by simp)

theorem c9_blocks_nonempty_witness :
    (⟨["a"], [[("a", "1")]], false⟩ : Block) ∈
      convert_results_to_outputs [recA]
    ∧ (⟨["a"], [[("a", "1")]], false⟩ : Block).data ≠ [] :=
  ⟨by decide, c9_blocks_nonempty [recA] _ (by decide)⟩

/-- The whitespace Python strips around an `int()` literal (ASCII part;
no claim depends on the exotic members of `str.strip`'s default set). -/
def isPySpace (c : Char) : Bool :=
  c = ' ' ∨ c = '\t' ∨ c = '\n' ∨ c = '\r'

/-- Python `int(s)` on a query-string value: optional surrounding
whitespace, an optional sign, then one or more ASCII digits; anything
else raises `ValueError`, modelled as `none`. (Underscore digit grouping
and non-ASCII decimal digits, which CPython also accepts, are not
modelled; no claim depends on them.) -/
def pyInt (s : String) : Option Int :=
  let cs := ((s.toList.dropWhile isPySpace).reverse.dropWhile isPySpace).reverse
  match cs with
  | [] => none
  | c :: rest =>
    let sign : Int := if c = '-' then -1 else 1
    let ds := if c = '-' ∨ c = '+' then rest else c :: rest
    if ds ≠ [] ∧ ds.all Char.isDigit = true then
      some (sign * (ds.foldl (fun n d => n * 10 + (d.toNat - 48)) 0 : Nat))
    else
      none

/-- `request.args.get(key, default)`: the first value stored under the
key, else the default. -/
def argsGet (args : List (String × String)) (key dflt : String) : String :=
  match args.find? (fun p => decide (p.1 = key)) with
  | some p => p.2
  | none => dflt

/-- The source tag the handlers pass to `fetch`. -/
inductive RequestSource
  | web
  | json_get
  | json_post
  deriving DecidableEq

/-- Outcome of a `query.fetch` call: a normal record list, a raised
`RedirectError` carrying a target url, or any other raised exception
carrying its message. -/
inductive FetchResult
  | ok (records : List OutputRecord)
  | redirectErr (url : String)
  | exn (msg : String)
  deriving DecidableEq

/-- A registered query object over its typed-input type: the `names()`
pair, whether `setup()` succeeds, the input model constructor
`input_model(**raw)` (a typed input or the validation message), and the
`fetch` operation. -/
structure Query (I : Type) where
  slug : String
  name : String
  setupOk : Bool
  binder : List (String × String) → Except String I
  fetch : List I → RequestSource → Int → Int → FetchResult

def takeUntilSlash : List Char → List Char
  | [] => []
  | c :: cs => if c = '/' then [] else c :: takeUntilSlash cs

/-- `url[1:].split("/")[0]`. -/
def urlSlug (url : String) : String :=
  ⟨takeUntilSlash (url.toList.drop 1)⟩

/-- Embedding of `fetch_query`: look the slug up in the registry,
returning the query and an empty error string, or no query and the
not-hosted message. -/
def fetch_query {I : Type} (registry : List (String × Query I))
    (url : String) : Option (Query I) × String :=
  let slug := urlSlug url
  match registry.find? (fun p => decide (p.1 = slug)) with
  | some p => (some p.2, "")
  | none =>
    (none, "Requested query \x27" ++ slug ++ "\x27 not hosted on this site.")

/-- Trace events recorded by the handler embeddings: one `bindCall` per
`input_model(**raw)` invocation, one `fetchCall` per `query.fetch`
invocation. -/
inductive HEvent
  | bindCall
  | fetchCall
  deriving DecidableEq

def DEFAULT_QUERY_RESULT_SIZE : Nat := 100

/-- The not-supported message used for pagination parameters outside the
POST path. -/
def offsetCountMsg : String :=
  "offset and count arguments are only supported for the POST method"

/-- The exception escaping a handler when `int()` fails on a pagination
parameter. -/
def valueErrorMsg : String :=
  "ValueError: invalid literal for int() with base 10"

/-- A request as the GET-style handlers read it: its path and its
query-string multidict (ordered key/value pairs). -/
structure WebRequest where
  path : String
  args : List (String × String)

/-- A machine POST request: path, query string, and the decoded JSON
body — a list of raw input mappings. -/
structure PostRequest where
  path : String
  args : List (String × String)
  body : List (List (String × String))

/-- Responses of the interactive handler: a rendered error page, an HTTP
redirect, the rendered query page with its grouped result blocks, or an
exception escaping the handler. -/
inductive WebResp
  | errorPage (error : String)
  | redirectTo (url : String)
  | page (results : List Block)
  | uncaught (msg : String)
  deriving DecidableEq

/-- Embedding of `web_query_handler`: resolve the slug, convert the
pagination parameters with `int()` (a failure escapes uncaught), reject
nonnegative pagination, then — only when query parameters are present —
bind one input record and run `fetch`, special-casing `RedirectError`
and rendering any other failure as an error page. -/
def web_query_handler {I : Type} (registry : List (String × Query I))
    (req : WebRequest) : WebResp × List HEvent :=
  let fq := fetch_query registry req.path
  match fq.1 with
  | none => (.errorPage fq.2, [])
  | some query =>
    match pyInt (argsGet req.args "offset" "-1") with
    | none => (.uncaught valueErrorMsg, [])
    | some offset =>
      match pyInt (argsGet req.args "count" "-1") with
      | none => (.uncaught valueErrorMsg, [])
      | some count =>
        if 0 ≤ offset ∨ 0 ≤ count then
          (.errorPage offsetCountMsg, [])
        else if req.args.isEmpty then
          (.page [], [])
        else
          match query.binder req.args with
          | .error err => (.errorPage err, [.bindCall])
          | .ok inp =>
            match query.fetch [inp] .web (-1) (-1) with
            | .redirectErr url => (.redirectTo url, [.bindCall, .fetchCall])
            | .exn err => (.errorPage err, [.bindCall, .fetchCall])
            | .ok results =>
              (.page (convert_results_to_outputs results),
               [.bindCall, .fetchCall])

/-- Responses of the machine handlers: a raised `BadRequest` (HTTP 400
with the message), the serialized record list (HTTP 200), the opaque
empty JSON object with HTTP 500, the JSON error object with HTTP 400,
or an exception escaping the handler. -/
inductive JsonResp
  | badRequest (msg : String)
  | okJson (records : List OutputRecord)
  | emptyJson500
  | errorJson400 (msg : String)
  | uncaught (msg : String)
  deriving DecidableEq

/-- Embedding of `json_query_handler_get`: unknown slug, nonnegative
pagination and binder failures raise `BadRequest`; every exception out
of `fetch` (a `RedirectError` included — the bare `except Exception`
catches it) yields the empty JSON object with HTTP 500. -/
def json_query_handler_get {I : Type} (registry : List (String × Query I))
    (req : WebRequest) : JsonResp × List HEvent :=
  let fq := fetch_query registry req.path
  match fq.1 with
  | none => (.badRequest fq.2, [])
  | some query =>
    match pyInt (argsGet req.args "offset" "-1") with
    | none => (.uncaught valueErrorMsg, [])
    | some offset =>
      match pyInt (argsGet req.args "count" "-1") with
      | none => (.uncaught valueErrorMsg, [])
      | some count =>
        if 0 ≤ offset ∨ 0 ≤ count then
          (.badRequest offsetCountMsg, [])
        else
          match query.binder req.args with
          | .error err => (.badRequest err, [.bindCall])
          | .ok inp =>
            match query.fetch [inp] .json_get (-1) (-1) with
            | .ok records => (.okJson records, [.bindCall, .fetchCall])
            | .redirectErr _ => (.emptyJson500, [.bindCall, .fetchCall])
            | .exn _ => (.emptyJson500, [.bindCall, .fetchCall])

/-- The POST binding loop `for item in request.json` wrapped in one try:
the typed inputs when every item validates, or the first validation
failure; paired with the number of binder invocations performed. -/
def bindItems {I : Type} (binder : List (String × String) → Except String I) :
    List (List (String × String)) → Except String (List I) × Nat
  | [] => (.ok [], 0)
  | x :: xs =>
    match binder x with
    | .error e => (.error e, 1)
    | .ok v =>
      match bindItems binder xs with
      | (.error e, n) => (.error e, n + 1)
      | (.ok vs, n) => (.ok (v :: vs), n + 1)

/-- Embedding of `json_query_handler_post`: resolve the slug, bind every
body item (all-or-nothing, raising `BadRequest` on the first failure),
convert pagination with defaults `0` and `DEFAULT_QUERY_RESULT_SIZE`,
and run `fetch`; any exception out of it yields the JSON error object
with HTTP 400. -/
def json_query_handler_post {I : Type} (registry : List (String × Query I))
    (req : PostRequest) : JsonResp × List HEvent :=
  let fq := fetch_query registry req.path
  match fq.1 with
  | none => (.badRequest fq.2, [])
  | some query =>
    let bres := bindItems query.binder req.body
    let bev := List.replicate bres.2 HEvent.bindCall
    match bres.1 with
    | .error err => (.badRequest err, bev)
    | .ok inputs =>
      match pyInt (argsGet req.args "offset" "0") with
      | none => (.uncaught valueErrorMsg, bev)
      | some offset =>
        match pyInt (argsGet req.args "count"
            (toString DEFAULT_QUERY_RESULT_SIZE)) with
        | none => (.uncaught valueErrorMsg, bev)
        | some count =>
          match query.fetch inputs .json_post offset count with
          | .ok records => (.okJson records, bev ++ [.fetchCall])
          | .redirectErr url => (.errorJson400 url, bev ++ [.fetchCall])
          | .exn err => (.errorJson400 err, bev ++ [.fetchCall])

/-- Registration-time state: the module-level `registered_queries` dict
and the blueprint's installed url rules as (rule, endpoint) pairs. -/
structure RegState (I : Type) where
  registry : List (String × Query I)
  routes : List (String × String)

/-- Events recorded by `register_query`, in execution order. -/
inductive RegEvent
  | setupCall
  | registryInsert (slug : String)
  | addUrlRule (rule : String)
  deriving DecidableEq

/-- Python dict assignment `registered_queries[slug] = query`: replace
in place when the key exists, append otherwise. -/
def dictSet {I : Type} (m : List (String × Query I)) (k : String)
    (v : Query I) : List (String × Query I) :=
  if m.any (fun p => decide (p.1 = k)) then
    m.map (fun p => if p.1 = k then (k, v) else p)
  else
    m ++ [(k, v)]

/-- Embedding of `register_query`: run `setup()` first — a failure
propagates before anything else happens — then read `names()`, insert
into the registry and install the two url rules. The returned state is
`none` when registration aborted, leaving the caller's state in place. -/
def register_query {I : Type} (q : Query I) (st : RegState I) :
    Option (RegState I) × List RegEvent :=
  if q.setupOk then
    (some { registry := dictSet st.registry q.slug q
          , routes := st.routes ++
              [("/" ++ q.slug, q.slug),
               ("/" ++ q.slug ++ "/json", q.slug ++ "_json")] },
     [.setupCall, .registryInsert q.slug,
      .addUrlRule ("/" ++ q.slug), .addUrlRule ("/" ++ q.slug ++ "/json")])
  else
    (none, [.setupCall])

/-- Sample queries used to instantiate the handler claims at concrete
inputs. -/
def qOk : Query Unit :=
  ⟨"q", "Example query", true, fun _ => .ok (), fun _ _ _ _ => .ok []⟩

def qExn : Query Unit :=
  ⟨"q", "Example query", true, fun _ => .ok (), fun _ _ _ _ => .exn "boom"⟩

def qBindFail : Query Unit :=
  ⟨"q", "Example query", true, fun _ => .error "validation failed",
   fun _ _ _ _ => .ok []⟩

def qNoSetup : Query Unit :=
  ⟨"ex", "Example query", false, fun _ => .ok (), fun _ _ _ _ => .ok []⟩

/-- The binding loop fails whenever some body item fails to validate. -/
theorem bindItems_error_of_mem {I : Type}
    (binder : List (String × String) → Except String I) :
    ∀ body : List (List (String × String)),
    (∃ x ∈ body, ∃ e, binder x = .error e) →
    ∃ e, (bindItems binder body).1 = .error e := by
  intro body
  induction body with
  | nil =>
    rintro ⟨x, hx, _⟩
    exact absurd hx (List.not_mem_nil x)
  | cons x xs ih =>
    rintro ⟨y, hy, e, he⟩
    simp only [bindItems]
    cases hb : binder x with
    | error e2 => exact ⟨e2, rfl⟩
    | ok v =>
      have hyx : y ∈ xs := by
        rcases List.mem_cons.mp hy with h1 | h1
        · subst h1
          rw [he] at hb
          cases hb
        · exact h1
      obtain ⟨e3, he3⟩ := ih ⟨y, hyx, e, he⟩
      rcases hxs : bindItems binder xs with ⟨r, n⟩
      rw [hxs] at he3
      cases r with
      | error e4 => exact ⟨e4, rfl⟩
      | ok vs => exact (Except.noConfusion he3)

/-- C2: if any element of a machine POST body fails to validate, the
whole batch fails with a single `BadRequest` — no partial list of
validated inputs is used — and the query's `fetch` is never invoked. -/
theorem c2_post_batch_atomic (I : Type)
    (registry : List (String × Query I)) (req : PostRequest) (q : Query I)
    (hq : (fetch_query registry req.path).1 = some q)
    (hfail : ∃ x ∈ req.body, ∃ e, q.binder x = .error e) :
    (∃ e, (json_query_handler_post registry req).1 = .badRequest e)
    ∧ HEvent.fetchCall ∉ (json_query_handler_post registry req).2 := by
  obtain ⟨e, he⟩ := bindItems_error_of_mem q.binder req.body hfail
  simp only [json_query_handler_post, hq]
  rcases hb : bindItems q.binder req.body with ⟨r, n⟩
  rw [hb] at he
  simp only at he
  subst he
  refine ⟨⟨e, rfl⟩, ?_⟩
  intro hmem
  simp only at hmem
  rw [List.mem_replicate] at hmem
  cases hmem.2

theorem c2_post_batch_atomic_witness :
    ((fetch_query [("q", qBindFail)] "/q").1 = some qBindFail)
    ∧ (∃ x ∈ ([[("a", "1")]] : List (List (String × String))),
        ∃ e, qBindFail.binder x = .error e)
    ∧ (∃ e, (json_query_handler_post [("q", qBindFail)]
         ⟨"/q", [], [[("a", "1")]]⟩).1 = .badRequest e)
    ∧ HEvent.fetchCall ∉
        (json_query_handler_post [("q", qBindFail)] ⟨"/q", [], [[("a", "1")]]⟩).2 :=
  ⟨rfl, ⟨[("a", "1")], List.mem_cons_self _ _, "validation failed", rfl⟩,
   (c2_post_batch_atomic Unit [("q", qBindFail)] ⟨"/q", [], [[("a", "1")]]⟩
      qBindFail rfl
      ⟨[("a", "1")], List.mem_cons_self _ _, "validation failed", rfl⟩).1,
   (c2_post_batch_atomic Unit [("q", qBindFail)] ⟨"/q", [], [[("a", "1")]]⟩
      qBindFail rfl
      ⟨[("a", "1")], List.mem_cons_self _ _, "validation failed", rfl⟩).2⟩

/-- C3 counterexample: a pagination parameter merely being present does
not reject the request: `offset=-5` parses negative, so the interactive
handler proceeds through binding and fetch and renders the normal query
page instead of the not-supported error. -/
theorem c3_counterexample :
    web_query_handler [("q", qOk)] ⟨"/q", [("offset", "-5")]⟩ =
      (.page [], [.bindCall, .fetchCall])
    ∧ (WebResp.page [] ≠ .errorPage offsetCountMsg) :=
  ⟨rfl, by decide⟩

/-- C3 (amended): on the interactive and machine GET paths, a request
whose offset and count parameters both convert and at least one of them
is nonnegative is rejected — error page on the interactive path,
`BadRequest` on the GET path — before any input binding or fetch call
(the trace is empty), regardless of the other parameters' validity.
Presence alone does not trigger the rejection: a negative value passes
through, and a non-integer value raises the conversion error instead. -/
theorem c3_pagination_reject :
    (∀ (I : Type) (registry : List (String × Query I)) (req : WebRequest)
       (q : Query I) (o c : Int),
       (fetch_query registry req.path).1 = some q →
       pyInt (argsGet req.args "offset" "-1") = some o →
       pyInt (argsGet req.args "count" "-1") = some c →
       (0 ≤ o ∨ 0 ≤ c) →
       web_query_handler registry req = (.errorPage offsetCountMsg, []))
    ∧ (∀ (I : Type) (registry : List (String × Query I)) (req : WebRequest)
       (q : Query I) (o c : Int),
       (fetch_query registry req.path).1 = some q →
       pyInt (argsGet req.args "offset" "-1") = some o →
       pyInt (argsGet req.args "count" "-1") = some c →
       (0 ≤ o ∨ 0 ≤ c) →
       json_query_handler_get registry req = (.badRequest offsetCountMsg, [])) := by
  constructor
  · intro I registry req q o c hq ho hc hoc
    simp only [web_query_handler, hq, ho, hc]
    rw [if_pos hoc]
  · intro I registry req q o c hq ho hc hoc
    simp only [json_query_handler_get, hq, ho, hc]
    rw [if_pos hoc]

theorem c3_pagination_reject_witness :
    ((fetch_query [("q", qOk)] "/q").1 = some qOk)
    ∧ (pyInt (argsGet [("offset", "0")] "offset" "-1") = some 0)
    ∧ (pyInt (argsGet [("offset", "0")] "count" "-1") = some (-1))
    ∧ ((0 : Int) ≤ 0 ∨ (0 : Int) ≤ -1)
    ∧ web_query_handler [("q", qOk)] ⟨"/q", [("offset", "0")]⟩ =
        (.errorPage offsetCountMsg, [])
    ∧ json_query_handler_get [("q", qOk)] ⟨"/q", [("offset", "0")]⟩ =
        (.badRequest offsetCountMsg, []) :=
  ⟨rfl, by decide, by decide, Or.inl le_rfl,
   c3_pagination_reject.1 Unit [("q", qOk)] ⟨"/q", [("offset", "0")]⟩ qOk 0 (-1)
     rfl (by decide) (by decide) (Or.inl le_rfl),
   c3_pagination_reject.2 Unit [("q", qOk)] ⟨"/q", [("offset", "0")]⟩ qOk 0 (-1)
     rfl (by decide) (by decide) (Or.inl le_rfl)⟩

/-- C6: when `fetch` raises a failure other than the redirect signal,
the machine GET path responds with the opaque empty JSON object and
HTTP 500 while the machine POST path responds with a JSON error object
and HTTP 400 — the asymmetry is as coded. -/
theorem c6_fetch_failure_status :
    (∀ (I : Type) (registry : List (String × Query I)) (req : WebRequest)
       (q : Query I) (inp : I) (msg : String) (o c : Int),
       (fetch_query registry req.path).1 = some q →
       pyInt (argsGet req.args "offset" "-1") = some o → o < 0 →
       pyInt (argsGet req.args "count" "-1") = some c → c < 0 →
       q.binder req.args = .ok inp →
       q.fetch [inp] .json_get (-1) (-1) = .exn msg →
       (json_query_handler_get registry req).1 = .emptyJson500)
    ∧ (∀ (I : Type) (registry : List (String × Query I)) (req : PostRequest)
       (q : Query I) (inputs : List I) (msg : String) (o c : Int) (n : Nat),
       (fetch_query registry req.path).1 = some q →
       bindItems q.binder req.body = (.ok inputs, n) →
       pyInt (argsGet req.args "offset" "0") = some o →
       pyInt (argsGet req.args "count" (toString DEFAULT_QUERY_RESULT_SIZE)) =
         some c →
       q.fetch inputs .json_post o c = .exn msg →
       (json_query_handler_post registry req).1 = .errorJson400 msg) := by
  constructor
  · intro I registry req q inp msg o c hq ho hol hc hcl hb hf
    simp only [json_query_handler_get, hq, ho, hc]
    rw [if_neg (by omega : ¬((0 : Int) ≤ o ∨ (0 : Int) ≤ c))]
    simp only [hb, hf]
  · intro I registry req q inputs msg o c n hq hbind ho hc hf
    simp only [json_query_handler_post, hq, hbind, ho, hc, hf]

theorem c6_fetch_failure_status_witness :
    ((fetch_query [("q", qExn)] "/q").1 = some qExn)
    ∧ (pyInt (argsGet ([] : List (String × String)) "offset" "-1") = some (-1))
    ∧ (pyInt (argsGet ([] : List (String × String)) "count" "-1") = some (-1))
    ∧ (qExn.binder [] = .ok ())
    ∧ (qExn.fetch [()] .json_get (-1) (-1) = .exn "boom")
    ∧ (bindItems qExn.binder [] = (.ok [], 0))
    ∧ (qExn.fetch [] .json_post 0 100 = .exn "boom")
    ∧ (json_query_handler_get [("q", qExn)] ⟨"/q", []⟩).1 = .emptyJson500
    ∧ (json_query_handler_post [("q", qExn)] ⟨"/q", [], []⟩).1 =
        .errorJson400 "boom" :=
  ⟨rfl, by decide, by decide, rfl, rfl, rfl, rfl,
   c6_fetch_failure_status.1 Unit [("q", qExn)] ⟨"/q", []⟩ qExn () "boom"
     (-1) (-1) rfl (by decide) (by decide) (by decide) (by decide) rfl rfl,
   c6_fetch_failure_status.2 Unit [("q", qExn)] ⟨"/q", [], []⟩ qExn [] "boom"
     0 100 0 rfl rfl (by decide) (by decide) rfl⟩

/-- C8: `register_query` invokes `setup()` exactly once and first —
before the registry insertion and the route installations — and when
`setup()` fails registration aborts with no new state, so a slug that
was not resolvable before is not resolvable afterwards. -/
theorem c8_register_setup_first (I : Type) (q : Query I) (st : RegState I) :
    ((register_query q st).2.head? = some .setupCall)
    ∧ ((register_query q st).2.countP (fun e => decide (e = .setupCall)) = 1)
    ∧ (q.setupOk = false → (register_query q st).1 = none)
    ∧ (q.setupOk = false →
       st.registry.find? (fun p => decide (p.1 = q.slug)) = none →
       ∀ url, urlSlug url = q.slug →
         (fetch_query st.registry url).1 = none) := by
  refine ⟨?_, ?_, ?_, ?_⟩
  · cases h : q.setupOk <;> simp [register_query, h]
  · cases h : q.setupOk <;> simp [register_query, h, List.countP, List.countP.go]
  · intro h
    simp [register_query, h]
  · intro _ hfind url hurl
    simp only [fetch_query, hurl]
    rw [hfind]

theorem c8_register_setup_first_witness :
    (qNoSetup.setupOk = false)
    ∧ (([] : List (String × Query Unit)).find?
        (fun p => decide (p.1 = qNoSetup.slug)) = none)
    ∧ (urlSlug "/ex" = qNoSetup.slug)
    ∧ ((register_query qNoSetup ⟨[], []⟩).2.head? = some .setupCall)
    ∧ ((register_query qNoSetup ⟨[], []⟩).2.countP
        (fun e => decide (e = .setupCall)) = 1)
    ∧ ((register_query qNoSetup ⟨[], []⟩).1 = none)
    ∧ ((fetch_query ([] : List (String × Query Unit)) "/ex").1 = none) :=
  ⟨rfl, rfl, by decide,
   (c8_register_setup_first Unit qNoSetup ⟨[], []⟩).1,
   (c8_register_setup_first Unit qNoSetup ⟨[], []⟩).2.1,
   (c8_register_setup_first Unit qNoSetup ⟨[], []⟩).2.2.1 rfl,
   (c8_register_setup_first Unit qNoSetup ⟨[], []⟩).2.2.2 rfl rfl "/ex" (by decide)⟩

/-- C10: on each of the three paths, an offset or count query parameter
that does not convert as a decimal integer makes the `int()` conversion
raise an error that escapes the handler — before `fetch` is ever
invoked — instead of the documented not-supported or bad-request
response (given that the request passed the guards that precede the
conversion: a resolvable slug, and on the POST path a body that
validates). -/
theorem c10_int_conversion_uncaught :
    (∀ (I : Type) (registry : List (String × Query I)) (req : WebRequest)
       (q : Query I),
       (fetch_query registry req.path).1 = some q →
       (pyInt (argsGet req.args "offset" "-1") = none ∨
        pyInt (argsGet req.args "count" "-1") = none) →
       (web_query_handler registry req).1 = .uncaught valueErrorMsg
       ∧ (web_query_handler registry req).2 = [])
    ∧ (∀ (I : Type) (registry : List (String × Query I)) (req : WebRequest)
       (q : Query I),
       (fetch_query registry req.path).1 = some q →
       (pyInt (argsGet req.args "offset" "-1") = none ∨
        pyInt (argsGet req.args "count" "-1") = none) →
       (json_query_handler_get registry req).1 = .uncaught valueErrorMsg
       ∧ (json_query_handler_get registry req).2 = [])
    ∧ (∀ (I : Type) (registry : List (String × Query I)) (req : PostRequest)
       (q : Query I) (inputs : List I) (n : Nat),
       (fetch_query registry req.path).1 = some q →
       bindItems q.binder req.body = (.ok inputs, n) →
       (pyInt (argsGet req.args "offset" "0") = none ∨
        pyInt (argsGet req.args "count" (toString DEFAULT_QUERY_RESULT_SIZE)) =
          none) →
       (json_query_handler_post registry req).1 = .uncaught valueErrorMsg
       ∧ HEvent.fetchCall ∉ (json_query_handler_post registry req).2) := by
  refine ⟨?_, ?_, ?_⟩
  · intro I registry req q hq hd
    rcases hd with ho | hc
    · simp [web_query_handler, hq, ho]
    · cases hO : pyInt (argsGet req.args "offset" "-1") with
      | none => simp [web_query_handler, hq, hO]
      | some o => simp [web_query_handler, hq, hO, hc]
  · intro I registry req q hq hd
    rcases hd with ho | hc
    · simp [json_query_handler_get, hq, ho]
    · cases hO : pyInt (argsGet req.args "offset" "-1") with
      | none => simp [json_query_handler_get, hq, hO]
      | some o => simp [json_query_handler_get, hq, hO, hc]
  · intro I registry req q inputs n hq hbind hd
    rcases hd with ho | hc
    · simp [json_query_handler_post, hq, hbind, ho, List.mem_replicate]
    · cases hO : pyInt (argsGet req.args "offset" "0") with
      | none => simp [json_query_handler_post, hq, hbind, hO, List.mem_replicate]
      | some o =>
        simp [json_query_handler_post, hq, hbind, hO, hc, List.mem_replicate]

theorem c10_int_conversion_uncaught_witness :
    ((fetch_query [("q", qOk)] "/q").1 = some qOk)
    ∧ (pyInt (argsGet [("offset", "abc")] "offset" "-1") = none)
    ∧ (bindItems qOk.binder [[("a", "1")]] = (.ok [()], 1))
    ∧ (pyInt (argsGet [("offset", "abc")] "offset" "0") = none)
    ∧ ((web_query_handler [("q", qOk)] ⟨"/q", [("offset", "abc")]⟩).1 =
         .uncaught valueErrorMsg
       ∧ (web_query_handler [("q", qOk)] ⟨"/q", [("offset", "abc")]⟩).2 = [])
    ∧ ((json_query_handler_get [("q", qOk)] ⟨"/q", [("offset", "abc")]⟩).1 =
         .uncaught valueErrorMsg
       ∧ (json_query_handler_get [("q", qOk)] ⟨"/q", [("offset", "abc")]⟩).2 = [])
    ∧ ((json_query_handler_post [("q", qOk)]
          ⟨"/q", [("offset", "abc")], [[("a", "1")]]⟩).1 = .uncaught valueErrorMsg
       ∧ HEvent.fetchCall ∉
           (json_query_handler_post [("q", qOk)]
             ⟨"/q", [("offset", "abc")], [[("a", "1")]]⟩).2) :=
  ⟨rfl, by decide, rfl, by decide,
   c10_int_conversion_uncaught.1 Unit [("q", qOk)]
     ⟨"/q", [("offset", "abc")]⟩ qOk rfl (Or.inl (by decide)),
   c10_int_conversion_uncaught.2.1 Unit [("q", qOk)]
     ⟨"/q", [("offset", "abc")]⟩ qOk rfl (Or.inl (by decide)),
   c10_int_conversion_uncaught.2.2 Unit [("q", qOk)]
     ⟨"/q", [("offset", "abc")], [[("a", "1")]]⟩ qOk [()] 1 rfl rfl
     (Or.inl (by decide))⟩
